import Mathlib

/-!
# The in-memory record service of `go-http-json/main.go`

A shallow embedding of the HTTP handlers of `go-http-json/main.go`.

* The two package-level variables `people` and `nextID` become the fields of
  an explicit `Store` that every handler receives and returns.
* Go's `int` is a 64-bit two's-complement integer: values are Lean integers
  and every arithmetic result is reduced by `wrapInt`.
* `encoding/json` and `net/http` are libraries, not code of the repository.
  What `Decode` returns for a body and what `Encode` writes for a value are
  the two fields of a `Codec` that every handler takes as an argument, so each
  theorem holds for every behaviour of the library, failing encoders included.
* The slice `people` is a list. Lists are unbounded while a slice lives in
  memory; `InMemory` says that a store fits there, and the two statements
  about whole runs of the server, on the ids of the stored records, are made
  for the stores that do.
* Requests handled in parallel are calls of `createPersonHandler` whose
  statements interleave: `stepCreate` is one statement of the success path of
  the handler and a schedule says which call moves next.
-/

namespace HttpJson

/-! ## Machine integers -/

/-- Largest value of Go's 64-bit `int`. -/
def maxInt : Int := 9223372036854775807

/-- Smallest value of Go's 64-bit `int`. -/
def minInt : Int := -9223372036854775808

/-- Reduction of a mathematical integer to the 64-bit two's-complement value
Go computes for it. -/
def wrapInt (x : Int) : Int :=
  (x + 9223372036854775808) % 18446744073709551616 - 9223372036854775808

/-! ## Data model -/

/-- The `Person` struct: a simple data model for JSON input and output. -/
structure Person where
  ID : Int
  Name : String
  Age : Int
deriving DecidableEq, Repr

/-- The in-memory storage: the package-level variables `people` and `nextID`. -/
structure Store where
  people : List Person
  nextID : Int
deriving DecidableEq, Repr

/-- The expected JSON body for creating a person. -/
structure createPersonRequest where
  Name : String
  Age : Int
deriving DecidableEq, Repr

/-- The parts of `*http.Request` the program can observe. -/
structure Request where
  Method : String
  Path : String
  Query : String
  Body : String
deriving DecidableEq, Repr

/-- The values the program hands to `json.NewEncoder(w).Encode`. -/
inductive Payload where
  | statusMap (m : List (String × String))
  | people (ps : List Person)
  | person (p : Person)
deriving DecidableEq, Repr

/-- What one call of `Encode` does: the bytes it wrote to the response and the
error it returned, if any. -/
structure Encoded where
  written : String
  err : Option String
deriving DecidableEq, Repr

/-- The behaviour of `encoding/json` as seen by the handlers:
`decode body` is the outcome of `json.NewDecoder(r.Body).Decode(&req)` on a
zero-valued `createPersonRequest`, and `encode v` that of
`json.NewEncoder(w).Encode(v)`. -/
structure Codec where
  decode : String → Except String createPersonRequest
  encode : Payload → Encoded

/-- What the `http.ResponseWriter` has recorded when the handler returns. -/
structure Response where
  contentType : String
  status : Int
  body : String
deriving DecidableEq, Repr

/-- The outcome of one handler call: the store afterwards, the response and
the lines printed with `log.Println`. -/
structure Result where
  store : Store
  resp : Response
  log : List String
deriving DecidableEq, Repr

/-! ## Constants of `net/http` -/

def MethodGet : String := "GET"
def MethodPost : String := "POST"
def StatusOK : Int := 200
def StatusCreated : Int := 201
def StatusBadRequest : Int := 400
def StatusNotFound : Int := 404
def StatusMethodNotAllowed : Int := 405

/-- The reply written by `http.Error(w, msg, code)`: a plain-text content type,
the status code and the message followed by a newline. -/
def httpError (msg : String) (code : Int) : Response :=
  { contentType := "text/plain; charset=utf-8", status := code, body := msg ++ "\n" }

/-- The response after `w.Header().Set("Content-Type", "application/json")`,
`w.WriteHeader(code)` and an `Encode` call that wrote `e.written`. -/
def jsonResponse (code : Int) (e : Encoded) : Response :=
  { contentType := "application/json", status := code, body := e.written }

/-- The `if err != nil { log.Println(msg, err) }` that follows every `Encode`. -/
def logEncodeError (msg : String) (e : Encoded) : List String :=
  match e.err with
  | some err => [msg ++ " " ++ err]
  | none => []

/-! ## Handlers -/

/-- The handler `statusHandler`: returns a simple JSON status. -/
def statusHandler (j : Codec) (s : Store) (_r : Request) : Result :=
  let status : List (String × String) := [("status", "ok")]
  let e := j.encode (Payload.statusMap status)
  { store := s, resp := jsonResponse StatusOK e,
    log := logEncodeError "error encoding status response:" e }

/-- The handler `listPeopleHandler`: returns all people as JSON. -/
def listPeopleHandler (j : Codec) (s : Store) (r : Request) : Result :=
  if r.Method ≠ MethodGet then
    { store := s, resp := httpError "method not allowed" StatusMethodNotAllowed, log := [] }
  else
    let e := j.encode (Payload.people s.people)
    { store := s, resp := jsonResponse StatusOK e,
      log := logEncodeError "error encoding people list:" e }

/-- The handler `createPersonHandler`: reads the JSON body, creates a new
`Person` and returns it. -/
def createPersonHandler (j : Codec) (s : Store) (r : Request) : Result :=
  if r.Method ≠ MethodPost then
    { store := s, resp := httpError "method not allowed" StatusMethodNotAllowed, log := [] }
  else
    match j.decode r.Body with
    | Except.error _ =>
      { store := s, resp := httpError "invalid JSON body" StatusBadRequest, log := [] }
    | Except.ok req =>
      if req.Name = "" ∨ req.Age ≤ 0 then
        { store := s,
          resp := httpError "name and age must be provided and valid" StatusBadRequest,
          log := [] }
      else
        let person : Person := { ID := s.nextID, Name := req.Name, Age := req.Age }
        let s1 : Store := { s with nextID := wrapInt (s.nextID + 1) }
        let s2 : Store := { s1 with people := s1.people ++ [person] }
        let e := j.encode (Payload.person person)
        { store := s2, resp := jsonResponse StatusCreated e,
          log := logEncodeError "error encoding created person:" e }

/-- The store at program start: `people` is nil and `nextID = 1`. -/
def initStore : Store := { people := [], nextID := 1 }

/-- The preloading done at the top of `main`: two appends, each followed by
`nextID++`. -/
def mainSeed : Store :=
  let s0 := initStore
  let s1 : Store := { s0 with people := s0.people ++ [{ ID := s0.nextID, Name := "Alice", Age := 30 }] }
  let s2 : Store := { s1 with nextID := wrapInt (s1.nextID + 1) }
  let s3 : Store := { s2 with people := s2.people ++ [{ ID := s2.nextID, Name := "Bob", Age := 25 }] }
  { s3 with nextID := wrapInt (s3.nextID + 1) }

/-- The function literal registered in `main` for `/people`: a switch on the
request method. -/
def peopleHandler (j : Codec) (s : Store) (r : Request) : Result :=
  if r.Method = MethodGet then listPeopleHandler j s r
  else if r.Method = MethodPost then createPersonHandler j s r
  else { store := s, resp := httpError "method not allowed" StatusMethodNotAllowed, log := [] }

/-- The two `http.HandleFunc` registrations of `main` on the default mux: the
patterns `/status` and `/people` match exactly these paths; for any other path
no code of the program runs and `net/http` answers by itself (taken here to be
its not-found reply). -/
def serve (j : Codec) (s : Store) (r : Request) : Result :=
  if r.Path = "/status" then statusHandler j s r
  else if r.Path = "/people" then peopleHandler j s r
  else { store := s, resp := httpError "404 page not found" StatusNotFound, log := [] }

/-- The store after the requests `rs` have been served one after another. -/
def run (j : Codec) (s : Store) : List Request → Store
  | [] => s
  | r :: rs => run j (serve j s r).store rs

/-- The responses to the requests `rs`, served one after another. -/
def responses (j : Codec) (s : Store) : List Request → List Response
  | [] => []
  | r :: rs => (serve j s r).resp :: responses j (serve j s r).store rs

/-- The number of successful creates among the requests `rs`: the responses
with status `201 Created`. -/
def createdCount (j : Codec) (s : Store) (rs : List Request) : Nat :=
  ((responses j s rs).filter (fun w => w.status = StatusCreated)).length

/-- A store is reachable when some finite sequence of requests leads to it from
the seeded store. -/
def Reachable (j : Codec) (s : Store) : Prop :=
  ∃ rs : List Request, run j mainSeed rs = s

/-! ## Concrete codecs and requests for the examples -/

/-- A codec for the examples: it decodes one body, a Carol aged 22, rejects
every other body, and writes a fixed text for each kind of value. -/
def demoCodec : Codec where
  decode := fun b =>
    if b = "\x7b\"name\":\"Carol\",\"age\":22\x7d" then Except.ok { Name := "Carol", Age := 22 }
    else Except.error "invalid character"
  encode := fun v =>
    match v with
    | Payload.statusMap _ => { written := "status", err := none }
    | Payload.people ps => { written := String.join (ps.map (fun p => p.Name)), err := none }
    | Payload.person p => { written := p.Name, err := none }

/-- The request of the example: a POST of Carol to `/people`. -/
def carolPost : Request :=
  { Method := "POST", Path := "/people", Query := "",
    Body := "\x7b\"name\":\"Carol\",\"age\":22\x7d" }

/-- A GET of `/people`. -/
def getPeople : Request :=
  { Method := "GET", Path := "/people", Query := "", Body := "" }

/-! ## Auxiliary notions for the proofs -/

/-- The record a successful create builds from the store and the decoded body. -/
def newPerson (s : Store) (name : String) (age : Int) : Person :=
  { ID := s.nextID, Name := name, Age := age }

/-- The relation between counter, ids and length that the seeding establishes
and every request keeps: the counter is the 64-bit value of length + 1 and the
ids are the 64-bit values of 1, 2, ..., length in this order. -/
def Tracked (s : Store) : Prop :=
  s.nextID = wrapInt ((s.people.length : Int) + 1) ∧
  s.people.map Person.ID =
    (List.range s.people.length).map (fun i : Nat => wrapInt ((i : Int) + 1))

/-- A codec for the examples that decodes every body to an empty name with
age 5. -/
def blankCodec : Codec where
  decode := fun _ => Except.ok { Name := "", Age := 5 }
  encode := fun _ => { written := "", err := none }

/-- A POST to `/people` whose body is not JSON. -/
def garbagePost : Request :=
  { Method := "POST", Path := "/people", Query := "", Body := "not json" }

/-- A DELETE of `/people`, carrying Carol as its body. -/
def deletePeople : Request :=
  { Method := "DELETE", Path := "/people", Query := "",
    Body := "\x7b\"name\":\"Carol\",\"age\":22\x7d" }

/-- A PUT of `/status` with a query and a body. -/
def putStatus : Request :=
  { Method := "PUT", Path := "/status", Query := "verbose=1", Body := "ignored" }

/-- A codec for the examples whose encoder always fails: it writes nothing and
returns an error. -/
def failingCodec : Codec where
  decode := fun _ => Except.error "unexpected end of JSON input"
  encode := fun _ => { written := "", err := some "write: broken pipe" }

/-- A codec for the examples that decodes every body to the name made of one
blank, with age 1, and writes the name of a record it encodes. -/
def spaceCodec : Codec where
  decode := fun _ => Except.ok { Name := " ", Age := 1 }
  encode := fun v =>
    match v with
    | Payload.statusMap _ => { written := "", err := none }
    | Payload.people ps => { written := String.join (ps.map (fun p => p.Name)), err := none }
    | Payload.person p => { written := p.Name, err := none }

/-- Every record of the store has a non-empty name and an age above 0. -/
def ValidRecords (s : Store) : Prop :=
  ∀ p ∈ s.people, p.Name ≠ "" ∧ 0 < p.Age

/-! ## Stores that fit in memory -/

/-- The size in bytes of one `Person` value on a 64-bit platform: the `int`
`ID`, the string header of `Name` (a pointer and a length) and the `int`
`Age`. -/
def personSize : Int := 32

/-- The stores a running program can hold: the backing array of the slice
`people`, `personSize` bytes for each record, lies in memory, so its size in
bytes is a machine integer. In particular the length of the slice is far below
`2^63 - 1`. -/
def InMemory (s : Store) : Prop :=
  personSize * (s.people.length : Int) ≤ maxInt

/-! ## Calls of the create handler that run in parallel -/

/-- How far a call of `createPersonHandler` has come on its success path, with
the local variable it holds there: the body is decoded and validated (`req`),
`person` is built, `nextID++` is done, the append is done. -/
inductive CreateCall where
  | validated (req : createPersonRequest)
  | built (person : Person)
  | incremented (person : Person)
  | appended (person : Person)
deriving DecidableEq, Repr

/-- The next statement of the success path of `createPersonHandler`, executed
by the call `c` on the shared store: `person := Person{ID: nextID, ...}`, then
`nextID++`, then `people = append(people, person)`. A call that has appended
only writes its response, which carries `person`, and leaves the store alone. -/
def stepCreate (s : Store) (c : CreateCall) : Store × CreateCall :=
  match c with
  | CreateCall.validated req =>
    (s, CreateCall.built { ID := s.nextID, Name := req.Name, Age := req.Age })
  | CreateCall.built person =>
    ({ s with nextID := wrapInt (s.nextID + 1) }, CreateCall.incremented person)
  | CreateCall.incremented person =>
    ({ s with people := s.people ++ [person] }, CreateCall.appended person)
  | CreateCall.appended person => (s, CreateCall.appended person)

/-- The call number `i` of the calls in flight executes its next statement. -/
def stepAt (s : Store) (cs : List CreateCall) (i : Nat) : Store × List CreateCall :=
  match cs[i]? with
  | some c => ((stepCreate s c).1, cs.set i (stepCreate s c).2)
  | none => (s, cs)

/-- The store and the calls in flight after the statements chosen by a schedule
have been executed, one after another. -/
def runSchedule (s : Store) (cs : List CreateCall) : List Nat → Store × List CreateCall
  | [] => (s, cs)
  | i :: is => runSchedule (stepAt s cs i).1 (stepAt s cs i).2 is

/-- The record a call returns in its response once it has appended. -/
def CreateCall.returned : CreateCall → Option Person
  | CreateCall.appended person => some person
  | _ => none

/-- Two calls of the create handler with valid bodies, Carol aged 22 and Dave
aged 40, both past validation. -/
def carolAndDave : List CreateCall :=
  [CreateCall.validated { Name := "Carol", Age := 22 },
   CreateCall.validated { Name := "Dave", Age := 40 }]

end HttpJson

/-!
# Functions and methods of `go-functions-methods/main.go`

`divideAndRemainder` and the two methods of `Person`. A Go variable of struct
type is a value; a method with a value receiver works on a copy of it, a
method with a pointer receiver on the variable itself. Both methods are
functions from the receiver they are given to the receiver as they leave it,
together with the line they print; what a call does to the caller's variable
is `callInfo` and `callHaveBirthday`.
-/

namespace FunctionsMethods

/-- The `Person` struct of `go-functions-methods/main.go`. -/
structure Person where
  Name : String
  Age : Int
deriving DecidableEq, Repr

/-- The line `fmt.Println` prints for its operands: the operands separated by
blanks, then a newline. -/
def Println (args : List String) : String :=
  " ".intercalate args ++ "\n"

/-- The function `divideAndRemainder`: `a / b` and `a % b` on 64-bit ints, that
is truncated division with both results reduced to 64 bits. Dividing by zero
is a run-time panic: no result is returned (`none`). -/
def divideAndRemainder (a : Int) (b : Int) : Option (Int × Int) :=
  if b = 0 then none
  else
    let quotient := HttpJson.wrapInt (Int.tdiv a b)
    let remainder := HttpJson.wrapInt (Int.tmod a b)
    some (quotient, remainder)

/-- The method `Info` (value receiver): `p` is the method's own copy of the
receiver. The result is that copy when the method ends and the line printed. -/
def Person.Info (p : Person) : Person × String :=
  let p : Person := { p with Age := 123 }
  (p, Println ["Person Info -> Name:", p.Name, "Age:", toString p.Age])

/-- The method `HaveBirthday` (pointer receiver): `p` is the value the receiver
points to. The result is that value when the method ends and the line
printed. -/
def Person.HaveBirthday (p : Person) : Person × String :=
  let p : Person := { p with Age := HttpJson.wrapInt (p.Age + 1) }
  (p, Println ["Happy birthday,", p.Name, "New age:", toString p.Age])

/-- The call `x.Info()` on a variable `x`: the method receives a copy, so the
variable keeps its value whatever the method does to the copy. The result is
the variable after the call and the line printed. -/
def callInfo (x : Person) : Person × String :=
  (x, (Person.Info x).2)

/-- The call `x.HaveBirthday()` on a variable `x`, for which Go passes `&x`, and
equally `ptr.HaveBirthday()` with `ptr := &x`: the method writes through the
pointer, so the variable afterwards holds what the method left there. -/
def callHaveBirthday (x : Person) : Person × String :=
  Person.HaveBirthday x

/-- The values of the variable `person` in `main`: as created, after
`person.Info()`, after `person.HaveBirthday()` and after
`personPtr.HaveBirthday()`. -/
def mainPersonStates : List Person :=
  let person : Person := { Name := "Alice", Age := 29 }
  let person1 := (callInfo person).1
  let person2 := (callHaveBirthday person1).1
  let person3 := (callHaveBirthday person2).1
  [person, person1, person2, person3]

end FunctionsMethods

namespace HttpJson

/-! ## Arithmetic of `wrapInt` -/

theorem wrapInt_of_inRange (x : Int) (hlo : minInt ≤ x) (hhi : x ≤ maxInt) : wrapInt x = x := by
  unfold wrapInt
  unfold minInt at hlo
  unfold maxInt at hhi
  omega

theorem wrapInt_succ_of_lt (x : Int) (hlo : minInt ≤ x) (hhi : x < maxInt) :
    wrapInt (x + 1) = x + 1 := by
  apply wrapInt_of_inRange
  · unfold minInt at *; omega
  · unfold maxInt at *; omega

theorem wrapInt_succ_maxInt : wrapInt (maxInt + 1) = minInt := by
  decide

theorem wrapInt_wrapInt_succ (x : Int) : wrapInt (wrapInt x + 1) = wrapInt (x + 1) := by
  unfold wrapInt
  omega

theorem le_wrapInt_succ (x : Int) (hhi : x < maxInt) : x ≤ wrapInt (x + 1) := by
  unfold wrapInt
  unfold maxInt at hhi
  omega

/-! ## The branches of the create handler -/

theorem createPersonHandler_valid (j : Codec) (s : Store) (r : Request) (name : String)
    (age : Int) (hm : r.Method = MethodPost)
    (hd : j.decode r.Body = Except.ok { Name := name, Age := age })
    (hn : name ≠ "") (ha : 0 < age) :
    createPersonHandler j s r =
      { store := { people := s.people ++ [newPerson s name age],
                   nextID := wrapInt (s.nextID + 1) },
        resp := jsonResponse StatusCreated (j.encode (Payload.person (newPerson s name age))),
        log := logEncodeError "error encoding created person:"
                 (j.encode (Payload.person (newPerson s name age))) } := by
  have hage : ¬ age ≤ 0 := not_le.mpr ha
  simp [createPersonHandler, hm, hd, hn, hage, newPerson]

theorem createPersonHandler_invalid (j : Codec) (s : Store) (r : Request) (name : String)
    (age : Int) (hm : r.Method = MethodPost)
    (hd : j.decode r.Body = Except.ok { Name := name, Age := age })
    (hbad : name = "" ∨ age ≤ 0) :
    createPersonHandler j s r =
      { store := s,
        resp := httpError "name and age must be provided and valid" StatusBadRequest,
        log := [] } := by
  simp [createPersonHandler, hm, hd, hbad]

theorem createPersonHandler_undecodable (j : Codec) (s : Store) (r : Request) (e : String)
    (hm : r.Method = MethodPost) (hd : j.decode r.Body = Except.error e) :
    createPersonHandler j s r =
      { store := s, resp := httpError "invalid JSON body" StatusBadRequest, log := [] } := by
  simp [createPersonHandler, hm, hd]

theorem createPersonHandler_wrongMethod (j : Codec) (s : Store) (r : Request)
    (hm : r.Method ≠ MethodPost) :
    createPersonHandler j s r =
      { store := s, resp := httpError "method not allowed" StatusMethodNotAllowed, log := [] } := by
  simp [createPersonHandler, hm]

theorem listPeopleHandler_get (j : Codec) (s : Store) (r : Request) (hm : r.Method = MethodGet) :
    listPeopleHandler j s r =
      { store := s, resp := jsonResponse StatusOK (j.encode (Payload.people s.people)),
        log := logEncodeError "error encoding people list:" (j.encode (Payload.people s.people)) } := by
  simp [listPeopleHandler, hm]

theorem listPeopleHandler_wrongMethod (j : Codec) (s : Store) (r : Request)
    (hm : r.Method ≠ MethodGet) :
    listPeopleHandler j s r =
      { store := s, resp := httpError "method not allowed" StatusMethodNotAllowed, log := [] } := by
  simp [listPeopleHandler, hm]

/-! ## One request: the store is untouched or one record is appended -/

theorem statusOK_ne_created : StatusOK ≠ StatusCreated := by decide

theorem statusBadRequest_ne_created : StatusBadRequest ≠ StatusCreated := by decide

theorem statusNotFound_ne_created : StatusNotFound ≠ StatusCreated := by decide

theorem statusMethodNotAllowed_ne_created : StatusMethodNotAllowed ≠ StatusCreated := by decide

/-- Every request served either leaves the store as it was, with a status
other than 201, or is a successful create: status 201, one record with the old
counter as id appended, and the counter incremented. -/
theorem serve_unchanged_or_created (j : Codec) (s : Store) (r : Request) :
    ((serve j s r).store = s ∧ (serve j s r).resp.status ≠ StatusCreated) ∨
    (∃ name age, name ≠ "" ∧ 0 < age ∧
      (serve j s r).store =
        { people := s.people ++ [newPerson s name age], nextID := wrapInt (s.nextID + 1) } ∧
      (serve j s r).resp.status = StatusCreated) := by
  unfold serve
  by_cases hs : r.Path = "/status"
  · rw [if_pos hs]
    exact Or.inl ⟨rfl, statusOK_ne_created⟩
  rw [if_neg hs]
  by_cases hp : r.Path = "/people"
  swap
  · rw [if_neg hp]
    exact Or.inl ⟨rfl, statusNotFound_ne_created⟩
  rw [if_pos hp]
  unfold peopleHandler
  by_cases hg : r.Method = MethodGet
  · rw [if_pos hg, listPeopleHandler_get j s r hg]
    exact Or.inl ⟨rfl, statusOK_ne_created⟩
  rw [if_neg hg]
  by_cases hm : r.Method = MethodPost
  swap
  · rw [if_neg hm]
    exact Or.inl ⟨rfl, statusMethodNotAllowed_ne_created⟩
  rw [if_pos hm]
  cases hd : j.decode r.Body with
  | error e =>
    rw [createPersonHandler_undecodable j s r e hm hd]
    exact Or.inl ⟨rfl, statusBadRequest_ne_created⟩
  | ok req =>
    obtain ⟨name, age⟩ := req
    by_cases hbad : name = "" ∨ age ≤ 0
    · rw [createPersonHandler_invalid j s r name age hm hd hbad]
      exact Or.inl ⟨rfl, statusBadRequest_ne_created⟩
    · have hn : name ≠ "" := fun h => hbad (Or.inl h)
      have ha : 0 < age := not_le.mp (fun h => hbad (Or.inr h))
      rw [createPersonHandler_valid j s r name age hm hd hn ha]
      exact Or.inr ⟨name, age, hn, ha, rfl, rfl⟩

theorem serve_people_extends (j : Codec) (s : Store) (r : Request) :
    s.people <+: (serve j s r).store.people := by
  rcases serve_unchanged_or_created j s r with ⟨h, _⟩ | ⟨name, age, _, _, h, _⟩
  · rw [h]
  · rw [h]
    exact ⟨[newPerson s name age], rfl⟩

theorem run_people_extends (j : Codec) (rs : List Request) :
    ∀ s : Store, s.people <+: (run j s rs).people := by
  induction rs with
  | nil => intro s; exact ⟨[], List.append_nil _⟩
  | cons r rs ih =>
    intro s
    exact (serve_people_extends j s r).trans (ih (serve j s r).store)

theorem run_append (j : Codec) (rs ts : List Request) :
    ∀ s : Store, run j s (rs ++ ts) = run j (run j s rs) ts := by
  induction rs with
  | nil => intro s; rfl
  | cons r rs ih => intro s; exact ih (serve j s r).store

/-- The length of the sequence grows by exactly the number of 201 responses. -/
theorem run_people_length (j : Codec) (rs : List Request) :
    ∀ s : Store, (run j s rs).people.length = s.people.length + createdCount j s rs := by
  induction rs with
  | nil => intro s; rfl
  | cons r rs ih =>
    intro s
    have hstep := ih (serve j s r).store
    have hcount : createdCount j s (r :: rs) =
        (if (serve j s r).resp.status = StatusCreated then 1 else 0) +
          createdCount j (serve j s r).store rs := by
      unfold createdCount
      by_cases h : (serve j s r).resp.status = StatusCreated
      · simp [responses, h]; omega
      · simp [responses, h]
    show (run j (serve j s r).store rs).people.length = _
    rw [hstep, hcount]
    rcases serve_unchanged_or_created j s r with ⟨h, hne⟩ | ⟨name, age, _, _, h, heq⟩
    · rw [if_neg hne, h]; omega
    · rw [if_pos heq, h]; simp; omega

/-! ## The counter tracks the length of the sequence -/

theorem tracked_mainSeed : Tracked mainSeed := by
  constructor <;> decide

theorem tracked_serve (j : Codec) (s : Store) (r : Request) (h : Tracked s) :
    Tracked (serve j s r).store := by
  rcases serve_unchanged_or_created j s r with ⟨hs, _⟩ | ⟨name, age, _, _, hs, _⟩
  · rw [hs]; exact h
  · rw [hs]
    obtain ⟨hc, hids⟩ := h
    constructor
    · show wrapInt (s.nextID + 1) = wrapInt (((s.people ++ [newPerson s name age]).length : Int) + 1)
      rw [hc, wrapInt_wrapInt_succ]
      simp
    · show (s.people ++ [newPerson s name age]).map Person.ID = _
      rw [List.map_append, hids, List.length_append, List.length_singleton, List.range_succ,
        List.map_append]
      simp [newPerson, hc]

theorem tracked_run (j : Codec) (rs : List Request) :
    ∀ s : Store, Tracked s → Tracked (run j s rs) := by
  induction rs with
  | nil => intro s h; exact h
  | cons r rs ih => intro s h; exact ih _ (tracked_serve j s r h)

theorem tracked_of_reachable (j : Codec) (s : Store) (h : Reachable j s) : Tracked s := by
  obtain ⟨rs, hrs⟩ := h
  rw [← hrs]
  exact tracked_run j rs mainSeed tracked_mainSeed

/-! ## C1: a valid create -/

/-- C1, as stated, fails at the largest counter: with `nextID = 2^63 - 1` a valid
POST answers 201, yet the counter afterwards is `-2^63`, not the old counter
plus 1. -/
theorem create_counter_plus_one_fails :
    carolPost.Method = MethodPost ∧
    demoCodec.decode carolPost.Body = Except.ok { Name := "Carol", Age := 22 } ∧
    (createPersonHandler demoCodec { people := [], nextID := 9223372036854775807 }
      carolPost).resp.status = 201 ∧
    (createPersonHandler demoCodec { people := [], nextID := 9223372036854775807 }
      carolPost).store.nextID = -9223372036854775808 ∧
    (createPersonHandler demoCodec { people := [], nextID := 9223372036854775807 }
      carolPost).store.nextID ≠ 9223372036854775807 + 1 := by
  refine ⟨rfl, rfl, ?_, ?_, ?_⟩ <;> decide

/-- C1, amended: for every store whose counter is a 64-bit `int` and every POST
whose body decodes to a non-empty name and an age above 0, the create handler
answers 201 with the JSON encoding of the record (counter before the call,
name, age), appends exactly that record at the end of the sequence (a list
afterwards encodes one more record than before), and sets the counter to the
old counter plus 1, except that the largest counter `2^63 - 1` wraps to
`-2^63`. -/
theorem create_valid_post (j : Codec) (s : Store) (r : Request) (name : String) (age : Int)
    (hlo : minInt ≤ s.nextID) (hhi : s.nextID ≤ maxInt)
    (hm : r.Method = MethodPost)
    (hd : j.decode r.Body = Except.ok { Name := name, Age := age })
    (hn : name ≠ "") (ha : 0 < age) :
    (createPersonHandler j s r).resp.status = 201 ∧
    (createPersonHandler j s r).resp.contentType = "application/json" ∧
    (createPersonHandler j s r).resp.body =
      (j.encode (Payload.person { ID := s.nextID, Name := name, Age := age })).written ∧
    (createPersonHandler j s r).store.people =
      s.people ++ [{ ID := s.nextID, Name := name, Age := age }] ∧
    (createPersonHandler j s r).store.people.length = s.people.length + 1 ∧
    (∀ g : Request, g.Method = MethodGet →
      (listPeopleHandler j (createPersonHandler j s r).store g).resp.body =
        (j.encode (Payload.people
          (s.people ++ [{ ID := s.nextID, Name := name, Age := age }]))).written) ∧
    (createPersonHandler j s r).store.nextID =
      (if s.nextID = maxInt then minInt else s.nextID + 1) := by
  rw [createPersonHandler_valid j s r name age hm hd hn ha]
  refine ⟨rfl, rfl, rfl, rfl, by simp, ?_, ?_⟩
  · intro g hg
    rw [listPeopleHandler_get j _ g hg]
    rfl
  · show wrapInt (s.nextID + 1) = _
    by_cases h : s.nextID = maxInt
    · rw [if_pos h, h]
      exact wrapInt_succ_maxInt
    · rw [if_neg h]
      exact wrapInt_succ_of_lt s.nextID hlo (lt_of_le_of_ne hhi h)

theorem create_valid_post_witness :
    (createPersonHandler demoCodec mainSeed carolPost).resp.status = 201 ∧
    (createPersonHandler demoCodec mainSeed carolPost).store.nextID = 4 :=
  have h := create_valid_post demoCodec mainSeed carolPost "Carol" 22
    (by decide) (by decide) rfl rfl (by decide) (by decide)
  ⟨h.1, h.2.2.2.2.2.2⟩

/-! ## C2: the id given by a create that follows any run -/

/-- C2, as stated, fails for the very first create: after the seeding and no
request, no create has succeeded, the new record gets id 3, and 3 is not
0 + 2. -/
theorem first_create_id_not_count_plus_two :
    createdCount demoCodec mainSeed [] = 0 ∧
    (createPersonHandler demoCodec (run demoCodec mainSeed []) carolPost).resp.status = 201 ∧
    (createPersonHandler demoCodec (run demoCodec mainSeed []) carolPost).store.people =
      [{ ID := 1, Name := "Alice", Age := 30 }, { ID := 2, Name := "Bob", Age := 25 },
       { ID := 3, Name := "Carol", Age := 22 }] ∧
    (3 : Int) ≠ ((createdCount demoCodec mainSeed [] : Nat) : Int) + 2 := by
  refine ⟨rfl, ?_, ?_, ?_⟩ <;> decide

/-- C2, amended: starting from the seeded store, after any sequence of requests
a valid create (non-empty name, age above 0) appends and returns a record whose
id is the 64-bit value of (successful creates before it) + 3, that is the two
seeded records plus one; this is (successful creates before it) + 3 itself as
long as that number does not exceed `2^63 - 1`. -/
theorem create_id_after_run (j : Codec) (rs : List Request) (r : Request) (name : String)
    (age : Int) (hm : r.Method = MethodPost)
    (hd : j.decode r.Body = Except.ok { Name := name, Age := age })
    (hn : name ≠ "") (ha : 0 < age) :
    (createPersonHandler j (run j mainSeed rs) r).resp.status = 201 ∧
    (createPersonHandler j (run j mainSeed rs) r).store.people =
      (run j mainSeed rs).people ++
        [{ ID := wrapInt ((createdCount j mainSeed rs : Int) + 3), Name := name, Age := age }] ∧
    (createPersonHandler j (run j mainSeed rs) r).resp.body =
      (j.encode (Payload.person
        { ID := wrapInt ((createdCount j mainSeed rs : Int) + 3),
          Name := name, Age := age })).written ∧
    ((createdCount j mainSeed rs : Int) + 3 ≤ maxInt →
      wrapInt ((createdCount j mainSeed rs : Int) + 3) = (createdCount j mainSeed rs : Int) + 3) := by
  have hid : (run j mainSeed rs).nextID = wrapInt ((createdCount j mainSeed rs : Int) + 3) := by
    have ht := (tracked_run j rs mainSeed tracked_mainSeed).1
    have hl := run_people_length j rs mainSeed
    have h2 : mainSeed.people.length = 2 := by decide
    rw [ht, hl, h2]
    congr 1
    push_cast
    ring
  rw [createPersonHandler_valid j _ r name age hm hd hn ha]
  refine ⟨rfl, ?_, ?_, ?_⟩
  · show (run j mainSeed rs).people ++ [newPerson (run j mainSeed rs) name age] = _
    unfold newPerson
    rw [hid]
  · show (j.encode (Payload.person (newPerson (run j mainSeed rs) name age))).written = _
    unfold newPerson
    rw [hid]
  · intro hle
    apply wrapInt_of_inRange _ _ hle
    have : (0 : Int) ≤ (createdCount j mainSeed rs : Int) := Int.ofNat_nonneg _
    unfold minInt
    omega

theorem create_id_after_run_witness :
    (createPersonHandler demoCodec (run demoCodec mainSeed [carolPost, getPeople]) carolPost
      ).store.people =
      (run demoCodec mainSeed [carolPost, getPeople]).people ++
        [{ ID := wrapInt ((createdCount demoCodec mainSeed [carolPost, getPeople] : Int) + 3),
           Name := "Carol", Age := 22 }] :=
  (create_id_after_run demoCodec [carolPost, getPeople] carolPost "Carol" 22 rfl rfl
    (by decide) (by decide)).2.1

/-! ## C3: a create the validation rejects -/

/-- C3: for every store and every POST whose body decodes to (name, age), the
create handler answers 400 with the message "name and age must be provided and
valid" exactly when the name is empty or the age is at most 0, and then the
sequence and the counter are unchanged, so that a following list encodes the
same sequence as before. -/
theorem create_rejects_iff_invalid (j : Codec) (s : Store) (r : Request) (name : String)
    (age : Int) (hm : r.Method = MethodPost)
    (hd : j.decode r.Body = Except.ok { Name := name, Age := age }) :
    ((createPersonHandler j s r).resp =
        httpError "name and age must be provided and valid" 400 ↔ (name = "" ∨ age ≤ 0)) ∧
    ((createPersonHandler j s r).resp.status = 400 ↔ (name = "" ∨ age ≤ 0)) ∧
    ((name = "" ∨ age ≤ 0) →
      (createPersonHandler j s r).store = s ∧
      (createPersonHandler j s r).resp.body = "name and age must be provided and valid\n" ∧
      ∀ g : Request, listPeopleHandler j (createPersonHandler j s r).store g =
        listPeopleHandler j s g) := by
  by_cases hbad : name = "" ∨ age ≤ 0
  · rw [createPersonHandler_invalid j s r name age hm hd hbad]
    exact ⟨⟨fun _ => hbad, fun _ => rfl⟩, ⟨fun _ => hbad, fun _ => rfl⟩,
      fun _ => ⟨rfl, rfl, fun _ => rfl⟩⟩
  · have hn : name ≠ "" := fun h => hbad (Or.inl h)
    have ha : 0 < age := not_le.mp (fun h => hbad (Or.inr h))
    rw [createPersonHandler_valid j s r name age hm hd hn ha]
    refine ⟨⟨fun h => ?_, fun h => absurd h hbad⟩, ⟨fun h => ?_, fun h => absurd h hbad⟩,
      fun h => absurd h hbad⟩
    · have hst : StatusCreated = StatusBadRequest := congrArg Response.status h
      exact absurd hst (by decide)
    · have hst : StatusCreated = StatusBadRequest := h
      exact absurd hst (by decide)

theorem create_rejects_iff_invalid_witness :
    (createPersonHandler blankCodec mainSeed carolPost).resp.status = 400 ∧
    (createPersonHandler blankCodec mainSeed carolPost).store = mainSeed :=
  have h := create_rejects_iff_invalid blankCodec mainSeed carolPost "" 5 rfl rfl
  ⟨h.2.1.mpr (Or.inl rfl), (h.2.2 (Or.inl rfl)).1⟩

/-! ## C4: a body that does not decode -/

/-- C4: for every store and every POST whose body fails to decode, the create
handler answers 400 with the message "invalid JSON body", creates no record and
leaves the sequence and the counter unchanged. -/
theorem create_undecodable_body (j : Codec) (s : Store) (r : Request) (e : String)
    (hm : r.Method = MethodPost) (hd : j.decode r.Body = Except.error e) :
    (createPersonHandler j s r).resp.status = 400 ∧
    (createPersonHandler j s r).resp.body = "invalid JSON body\n" ∧
    (createPersonHandler j s r).resp = httpError "invalid JSON body" 400 ∧
    (createPersonHandler j s r).store = s ∧
    (createPersonHandler j s r).store.people = s.people ∧
    (createPersonHandler j s r).store.nextID = s.nextID := by
  rw [createPersonHandler_undecodable j s r e hm hd]
  exact ⟨rfl, rfl, rfl, rfl, rfl, rfl⟩

theorem create_undecodable_body_witness :
    (createPersonHandler demoCodec mainSeed garbagePost).resp.status = 400 ∧
    (createPersonHandler demoCodec mainSeed garbagePost).store = mainSeed :=
  have h := create_undecodable_body demoCodec mainSeed garbagePost "invalid character" rfl rfl
  ⟨h.1, h.2.2.2.1⟩

/-! ## C5: distinct ids below the counter -/

theorem serve_people_post (j : Codec) (s : Store) (r : Request)
    (hp : r.Path = "/people") (hm : r.Method = MethodPost) :
    serve j s r = createPersonHandler j s r := by
  have hs : r.Path ≠ "/status" := by rw [hp]; decide
  have hg : r.Method ≠ MethodGet := by rw [hm]; decide
  unfold serve peopleHandler
  rw [if_neg hs, if_pos hp, if_neg hg, if_pos hm]

theorem createdCount_replicate (j : Codec) (r : Request) (name : String) (age : Int)
    (hp : r.Path = "/people") (hm : r.Method = MethodPost)
    (hd : j.decode r.Body = Except.ok { Name := name, Age := age })
    (hn : name ≠ "") (ha : 0 < age) (n : Nat) :
    ∀ s : Store, createdCount j s (List.replicate n r) = n := by
  induction n with
  | zero => intro s; rfl
  | succ n ih =>
    intro s
    have hst : (serve j s r).resp.status = StatusCreated := by
      rw [serve_people_post j s r hp hm,
        createPersonHandler_valid j s r name age hm hd hn ha]
      rfl
    have hrec := ih (serve j s r).store
    unfold createdCount at hrec ⊢
    rw [List.replicate_succ]
    show (List.filter _ ((serve j s r).resp :: responses j (serve j s r).store
      (List.replicate n r))).length = n + 1
    rw [List.filter_cons_of_pos (by simpa using hst), List.length_cons, hrec]

/-- After `n` valid creates the seeded store holds `n + 2` records, the first
one still Alice with id 1, and the counter is the 64-bit value of `n + 3`. -/
theorem run_replicate_valid (j : Codec) (r : Request) (name : String) (age : Int)
    (hp : r.Path = "/people") (hm : r.Method = MethodPost)
    (hd : j.decode r.Body = Except.ok { Name := name, Age := age })
    (hn : name ≠ "") (ha : 0 < age) (n : Nat) :
    (run j mainSeed (List.replicate n r)).nextID = wrapInt ((n : Int) + 3) ∧
    ({ ID := 1, Name := "Alice", Age := 30 } : Person) ∈
      (run j mainSeed (List.replicate n r)).people := by
  constructor
  · have ht := (tracked_run j (List.replicate n r) mainSeed tracked_mainSeed).1
    have hl := run_people_length j (List.replicate n r) mainSeed
    have h2 : mainSeed.people.length = 2 := by decide
    rw [ht, hl, h2, createdCount_replicate j r name age hp hm hd hn ha n mainSeed]
    congr 1
    push_cast
    ring
  · obtain ⟨t, ht⟩ := run_people_extends j (List.replicate n r) mainSeed
    rw [← ht]
    apply List.mem_append_left
    decide

theorem run_replicate_length (j : Codec) (r : Request) (name : String) (age : Int)
    (hp : r.Path = "/people") (hm : r.Method = MethodPost)
    (hd : j.decode r.Body = Except.ok { Name := name, Age := age })
    (hn : name ≠ "") (ha : 0 < age) (n : Nat) :
    (run j mainSeed (List.replicate n r)).people.length = 2 + n := by
  have hl := run_people_length j (List.replicate n r) mainSeed
  have h2 : mainSeed.people.length = 2 := by decide
  rw [hl, h2, createdCount_replicate j r name age hp hm hd hn ha n mainSeed]

/-- A store that fits in memory holds fewer than `2^63 - 2` records. -/
theorem length_lt_of_inMemory (s : Store) (h : InMemory s) :
    (s.people.length : Int) + 2 ≤ maxInt := by
  unfold InMemory personSize at h
  unfold maxInt at *
  omega

/-- Why the statements about whole runs are made for stores that fit in
memory: a list is unbounded, and the list reached from the seeded store by
`2^63 - 3` valid creates, which is not the slice of any running program, has
the counter `-2^63`, with the id 1 of the first record not below it. -/
theorem reachable_id_not_below_counter :
    Reachable demoCodec (run demoCodec mainSeed (List.replicate 9223372036854775805 carolPost)) ∧
    ¬ InMemory (run demoCodec mainSeed (List.replicate 9223372036854775805 carolPost)) ∧
    (run demoCodec mainSeed (List.replicate 9223372036854775805 carolPost)).nextID =
      -9223372036854775808 ∧
    ¬ (∀ p ∈ (run demoCodec mainSeed (List.replicate 9223372036854775805 carolPost)).people,
        p.ID < (run demoCodec mainSeed (List.replicate 9223372036854775805 carolPost)).nextID) := by
  have h := run_replicate_valid demoCodec carolPost "Carol" 22 rfl rfl rfl (by decide) (by decide)
    9223372036854775805
  have hlen := run_replicate_length demoCodec carolPost "Carol" 22 rfl rfl rfl (by decide)
    (by decide) 9223372036854775805
  have hc : wrapInt (((9223372036854775805 : Nat) : Int) + 3) = -9223372036854775808 := by decide
  rw [hc] at h
  refine ⟨⟨_, rfl⟩, fun hmem => ?_, h.1, fun hall => ?_⟩
  · have hb := length_lt_of_inMemory _ hmem
    rw [hlen] at hb
    exact absurd hb (by decide)
  · have hlt := hall _ h.2
    rw [h.1] at hlt
    exact absurd hlt (by decide)

/-- In a tracked store with fewer than `2^63 - 1` records the ids are pairwise
distinct and every id is strictly below the counter. -/
theorem tracked_ids_distinct_below_counter (s : Store) (h : Tracked s)
    (hlen : (s.people.length : Int) < maxInt) :
    (s.people.map Person.ID).Nodup ∧ ∀ p ∈ s.people, p.ID < s.nextID := by
  obtain ⟨hc, hids⟩ := h
  have hids2 : s.people.map Person.ID =
      (List.range s.people.length).map (fun i : Nat => (i : Int) + 1) := by
    rw [hids]
    apply List.map_congr_left
    intro i hi
    have hi2 : i < s.people.length := List.mem_range.mp hi
    apply wrapInt_of_inRange
    · unfold minInt; omega
    · omega
  have hc2 : s.nextID = (s.people.length : Int) + 1 := by
    rw [hc]
    apply wrapInt_of_inRange
    · unfold minInt; omega
    · omega
  constructor
  · rw [hids2]
    apply List.Nodup.map _ (List.nodup_range _)
    intro a b hab
    have : (a : Int) + 1 = (b : Int) + 1 := hab
    omega
  · intro p hp
    have hmem : p.ID ∈ s.people.map Person.ID := List.mem_map_of_mem _ hp
    rw [hids2] at hmem
    obtain ⟨i, hi, hpi⟩ := List.mem_map.mp hmem
    have hi2 : i < s.people.length := List.mem_range.mp hi
    rw [hc2, ← hpi]
    omega

/-- C5: in every store that is reachable from the seeded store by a finite
sequence of status, list and create requests (valid or invalid, any verb) and
fits in memory, as the store of a running program always does, the records
have pairwise distinct ids and every record's id is strictly less than the
counter. -/
theorem reachable_ids_distinct_below_counter (j : Codec) (s : Store) (h : Reachable j s)
    (hmem : InMemory s) :
    (s.people.map Person.ID).Nodup ∧ ∀ p ∈ s.people, p.ID < s.nextID := by
  have hlen := length_lt_of_inMemory s hmem
  exact tracked_ids_distinct_below_counter s (tracked_of_reachable j s h) (by omega)

theorem reachable_ids_distinct_below_counter_witness :
    Reachable demoCodec (run demoCodec mainSeed [carolPost, garbagePost, getPeople]) ∧
    InMemory (run demoCodec mainSeed [carolPost, garbagePost, getPeople]) ∧
    ((run demoCodec mainSeed [carolPost, garbagePost, getPeople]).people.map Person.ID).Nodup ∧
    ∀ p ∈ (run demoCodec mainSeed [carolPost, garbagePost, getPeople]).people,
      p.ID < (run demoCodec mainSeed [carolPost, garbagePost, getPeople]).nextID :=
  have hr : Reachable demoCodec (run demoCodec mainSeed [carolPost, garbagePost, getPeople]) :=
    ⟨[carolPost, garbagePost, getPeople], rfl⟩
  have hm : InMemory (run demoCodec mainSeed [carolPost, garbagePost, getPeople]) := by
    unfold InMemory
    decide
  ⟨hr, hm, reachable_ids_distinct_below_counter demoCodec _ hr hm⟩

/-! ## C6: no request removes or alters a record -/

/-- C6, as stated, fails at the largest counter: served with counter
`2^63 - 1`, a valid POST to `/people` leaves the counter at `-2^63`, below its
value before the request. -/
theorem serve_counter_decreases :
    (serve demoCodec { people := [], nextID := 9223372036854775807 } carolPost).store.nextID =
      -9223372036854775808 ∧
    ¬ ((9223372036854775807 : Int) ≤
      (serve demoCodec { people := [], nextID := 9223372036854775807 } carolPost).store.nextID) := by
  constructor <;> decide

/-- C6, amended: for every store and every single request (any path, any
verb, any body) the sequence before the request is an initial segment of the
sequence after it, so no record is removed, reordered or changed, and the
sequence after it is the old one or the old one with one record appended; the
counter after the request is at least the counter before it whenever the
counter before it is below `2^63 - 1`. -/
theorem serve_keeps_records (j : Codec) (s : Store) (r : Request) :
    s.people <+: (serve j s r).store.people ∧
    ((serve j s r).store.people = s.people ∨
      ∃ p : Person, (serve j s r).store.people = s.people ++ [p]) ∧
    (∀ (i : Nat) (p : Person), s.people[i]? = some p →
      (serve j s r).store.people[i]? = some p) ∧
    (s.nextID < maxInt → s.nextID ≤ (serve j s r).store.nextID) := by
  refine ⟨serve_people_extends j s r, ?_, ?_, ?_⟩
  · rcases serve_unchanged_or_created j s r with ⟨h, _⟩ | ⟨name, age, _, _, h, _⟩
    · rw [h]; exact Or.inl rfl
    · rw [h]; exact Or.inr ⟨newPerson s name age, rfl⟩
  · intro i p hi
    obtain ⟨t, ht⟩ := serve_people_extends j s r
    rw [← ht]
    have hlt : i < s.people.length := by
      rcases Nat.lt_or_ge i s.people.length with h | h
      · exact h
      · rw [List.getElem?_eq_none h] at hi
        exact absurd hi (by simp)
    rw [List.getElem?_append_left hlt]
    exact hi
  · intro hlt
    rcases serve_unchanged_or_created j s r with ⟨h, _⟩ | ⟨name, age, _, _, h, _⟩
    · rw [h]
    · rw [h]
      exact le_wrapInt_succ s.nextID hlt

theorem serve_keeps_records_witness :
    mainSeed.nextID ≤ (serve demoCodec mainSeed carolPost).store.nextID :=
  (serve_keeps_records demoCodec mainSeed carolPost).2.2.2 (by decide)

/-! ## C7: the list handler -/

/-- C7: for every store, a GET handled by the list handler answers 200 with the
JSON encoding of the whole sequence in store order as its body and leaves the
sequence and the counter unchanged; hence two consecutive list calls give
identical responses. -/
theorem list_get (j : Codec) (s : Store) (r : Request) (hm : r.Method = MethodGet) :
    (listPeopleHandler j s r).resp.status = 200 ∧
    (listPeopleHandler j s r).resp.contentType = "application/json" ∧
    (listPeopleHandler j s r).resp.body = (j.encode (Payload.people s.people)).written ∧
    (listPeopleHandler j s r).store = s ∧
    (∀ g : Request, g.Method = MethodGet →
      (listPeopleHandler j (listPeopleHandler j s r).store g).resp =
        (listPeopleHandler j s r).resp) := by
  rw [listPeopleHandler_get j s r hm]
  refine ⟨rfl, rfl, rfl, rfl, ?_⟩
  intro g hg
  rw [listPeopleHandler_get j _ g hg]

theorem list_get_witness :
    (listPeopleHandler demoCodec mainSeed getPeople).resp.status = 200 ∧
    (listPeopleHandler demoCodec mainSeed getPeople).resp.body = "AliceBob" ∧
    (listPeopleHandler demoCodec mainSeed getPeople).store = mainSeed :=
  have h := list_get demoCodec mainSeed getPeople rfl
  ⟨h.1, h.2.2.1, h.2.2.2.1⟩

/-! ## C8: dispatch on the verb -/

/-- C8: on the collection path `/people`, for every store and request, a GET
gives exactly the result of the list handler, a POST exactly that of the create
handler, and every other verb 405 "method not allowed" with the store
unchanged; the list handler called with a verb other than GET and the create
handler called with a verb other than POST answer 405 with the store unchanged,
whatever the body and the codec are. -/
theorem people_dispatch (j : Codec) (s : Store) (r : Request) :
    (r.Method = MethodGet → peopleHandler j s r = listPeopleHandler j s r) ∧
    (r.Method = MethodPost → peopleHandler j s r = createPersonHandler j s r) ∧
    (r.Method ≠ MethodGet → r.Method ≠ MethodPost →
      peopleHandler j s r =
        { store := s, resp := httpError "method not allowed" 405, log := [] }) ∧
    (r.Path = "/people" → serve j s r = peopleHandler j s r) ∧
    (r.Method ≠ MethodGet →
      listPeopleHandler j s r =
        { store := s, resp := httpError "method not allowed" 405, log := [] }) ∧
    (r.Method ≠ MethodPost →
      createPersonHandler j s r =
        { store := s, resp := httpError "method not allowed" 405, log := [] }) := by
  refine ⟨?_, ?_, ?_, ?_, ?_, ?_⟩
  · intro hg
    unfold peopleHandler
    rw [if_pos hg]
  · intro hm
    have hg : r.Method ≠ MethodGet := by rw [hm]; decide
    unfold peopleHandler
    rw [if_neg hg, if_pos hm]
  · intro hg hm
    unfold peopleHandler
    rw [if_neg hg, if_neg hm]
    rfl
  · intro hp
    have hs : r.Path ≠ "/status" := by rw [hp]; decide
    unfold serve
    rw [if_neg hs, if_pos hp]
  · intro hg
    exact listPeopleHandler_wrongMethod j s r hg
  · intro hm
    exact createPersonHandler_wrongMethod j s r hm

theorem people_dispatch_witness :
    peopleHandler demoCodec mainSeed getPeople = listPeopleHandler demoCodec mainSeed getPeople ∧
    peopleHandler demoCodec mainSeed carolPost =
      createPersonHandler demoCodec mainSeed carolPost ∧
    (serve demoCodec mainSeed deletePeople).resp.status = 405 ∧
    (createPersonHandler demoCodec mainSeed deletePeople).store = mainSeed :=
  ⟨(people_dispatch demoCodec mainSeed getPeople).1 rfl,
   (people_dispatch demoCodec mainSeed carolPost).2.1 rfl,
   by
     rw [(people_dispatch demoCodec mainSeed deletePeople).2.2.2.1 rfl,
       (people_dispatch demoCodec mainSeed deletePeople).2.2.1 (by decide) (by decide)]
     rfl,
   by
     rw [(people_dispatch demoCodec mainSeed deletePeople).2.2.2.2.2 (by decide)]⟩

/-! ## C9: the status handler -/

/-- C9: for every request and every store the status handler answers 200 with
content type application/json and the JSON encoding of the fixed map
status -> ok, and leaves the sequence and the counter unchanged; the response
is the same for every request and every store. -/
theorem status_fixed (j : Codec) (s : Store) (r : Request) :
    (statusHandler j s r).resp.status = 200 ∧
    (statusHandler j s r).resp.contentType = "application/json" ∧
    (statusHandler j s r).resp.body =
      (j.encode (Payload.statusMap [("status", "ok")])).written ∧
    (statusHandler j s r).store = s ∧
    (∀ (s2 : Store) (r2 : Request), (statusHandler j s2 r2).resp = (statusHandler j s r).resp) ∧
    (r.Path = "/status" → serve j s r = statusHandler j s r) :=
  ⟨rfl, rfl, rfl, rfl, fun _ _ => rfl, fun hp => by unfold serve; rw [if_pos hp]⟩

theorem status_fixed_witness :
    (serve demoCodec mainSeed putStatus).resp.status = 200 ∧
    (serve demoCodec mainSeed putStatus).store = mainSeed :=
  have h := status_fixed demoCodec mainSeed putStatus
  ⟨by rw [h.2.2.2.2.2 rfl]; exact h.1, by rw [h.2.2.2.2.2 rfl]; exact h.2.2.2.1⟩

/-! ## C10: the worked example -/

theorem serve_people_get (j : Codec) (s : Store) (r : Request)
    (hp : r.Path = "/people") (hg : r.Method = MethodGet) :
    serve j s r = listPeopleHandler j s r := by
  have hs : r.Path ≠ "/status" := by rw [hp]; decide
  unfold serve peopleHandler
  rw [if_neg hs, if_pos hp, if_pos hg]

/-- C10: the seeding of `main` leaves exactly Alice (id 1, age 30) and Bob
(id 2, age 25) with counter 3; for every codec that decodes the body of the
example to Carol aged 22, the POST to `/people` answers 201 with the encoding
of the record (3, Carol, 22), and a following GET of `/people` answers 200 with
the encoding of exactly three records whose ids are 1, 2, 3 in this order. -/
theorem carol_scenario (j : Codec)
    (hd : j.decode "\x7b\"name\":\"Carol\",\"age\":22\x7d" =
      Except.ok { Name := "Carol", Age := 22 }) :
    mainSeed =
      { people := [{ ID := 1, Name := "Alice", Age := 30 }, { ID := 2, Name := "Bob", Age := 25 }],
        nextID := 3 } ∧
    (serve j mainSeed carolPost).resp.status = 201 ∧
    (serve j mainSeed carolPost).resp.body =
      (j.encode (Payload.person { ID := 3, Name := "Carol", Age := 22 })).written ∧
    (serve j (serve j mainSeed carolPost).store getPeople).resp.status = 200 ∧
    (serve j (serve j mainSeed carolPost).store getPeople).resp.body =
      (j.encode (Payload.people
        [{ ID := 1, Name := "Alice", Age := 30 }, { ID := 2, Name := "Bob", Age := 25 },
         { ID := 3, Name := "Carol", Age := 22 }])).written ∧
    (serve j mainSeed carolPost).store.people.map Person.ID = [1, 2, 3] := by
  have hpost : serve j mainSeed carolPost =
      { store := { people := mainSeed.people ++ [newPerson mainSeed "Carol" 22],
                   nextID := wrapInt (mainSeed.nextID + 1) },
        resp := jsonResponse StatusCreated
          (j.encode (Payload.person (newPerson mainSeed "Carol" 22))),
        log := logEncodeError "error encoding created person:"
          (j.encode (Payload.person (newPerson mainSeed "Carol" 22))) } := by
    rw [serve_people_post j mainSeed carolPost rfl rfl]
    exact createPersonHandler_valid j mainSeed carolPost "Carol" 22 rfl hd (by decide) (by decide)
  have hget : ∀ s : Store, serve j s getPeople =
      { store := s, resp := jsonResponse StatusOK (j.encode (Payload.people s.people)),
        log := logEncodeError "error encoding people list:"
          (j.encode (Payload.people s.people)) } := by
    intro s
    rw [serve_people_get j s getPeople rfl rfl]
    exact listPeopleHandler_get j s getPeople rfl
  rw [hpost, hget]
  exact ⟨by decide, rfl, rfl, rfl, rfl, rfl⟩

theorem carol_scenario_witness :
    (serve demoCodec mainSeed carolPost).resp.status = 201 ∧
    (serve demoCodec mainSeed carolPost).resp.body = "Carol" ∧
    (serve demoCodec (serve demoCodec mainSeed carolPost).store getPeople).resp.body =
      "AliceBobCarol" :=
  have h := carol_scenario demoCodec rfl
  ⟨h.2.1, h.2.2.1, h.2.2.2.2.1⟩

/-! ## C11: the ids handed out by successive creates -/

/-- In a tracked store that holds at most `2^63 - 1` records the ids are
1, 2, ..., length in this order. -/
theorem tracked_ids_eq (s : Store) (h : Tracked s) (hlen : (s.people.length : Int) ≤ maxInt) :
    s.people.map Person.ID = (List.range s.people.length).map (fun i : Nat => (i : Int) + 1) := by
  rw [h.2]
  apply List.map_congr_left
  intro i hi
  have hi2 : i < s.people.length := List.mem_range.mp hi
  apply wrapInt_of_inRange
  · unfold minInt; omega
  · omega

/-- In a tracked store the record at position `i` has the 64-bit value of
`i + 1` as its id. -/
theorem tracked_id_at (s : Store) (h : Tracked s) (i : Nat) (hi : i < s.people.length) :
    ∃ p : Person, s.people[i]? = some p ∧ p.ID = wrapInt ((i : Int) + 1) := by
  have hget : (s.people.map Person.ID)[i]? =
      ((List.range s.people.length).map (fun k : Nat => wrapInt ((k : Int) + 1)))[i]? := by
    rw [h.2]
  rw [List.getElem?_map, List.getElem?_map, List.getElem?_range hi,
    List.getElem?_eq_getElem hi] at hget
  exact ⟨s.people[i], List.getElem?_eq_getElem hi, by simpa using hget⟩

/-- A request that is not answered 201 leaves the sequence and the counter as
they were. -/
theorem serve_not_created_unchanged (j : Codec) (s : Store) (r : Request)
    (h : (serve j s r).resp.status ≠ StatusCreated) : (serve j s r).store = s := by
  rcases serve_unchanged_or_created j s r with ⟨hs, _⟩ | ⟨_, _, _, _, _, hc⟩
  · exact hs
  · exact absurd hc h

/-- After `n + 1` valid creates the last record, which is among the created
ones, has the 64-bit value of `n + 3` as its id. -/
theorem run_replicate_last_id (j : Codec) (r : Request) (name : String) (age : Int)
    (hp : r.Path = "/people") (hm : r.Method = MethodPost)
    (hd : j.decode r.Body = Except.ok { Name := name, Age := age })
    (hn : name ≠ "") (ha : 0 < age) (n : Nat) :
    ∃ p ∈ (run j mainSeed (List.replicate (n + 1) r)).people.drop 2,
      p.ID = wrapInt ((n : Int) + 3) := by
  have ht := tracked_run j (List.replicate (n + 1) r) mainSeed tracked_mainSeed
  have hl := run_people_length j (List.replicate (n + 1) r) mainSeed
  have h2 : mainSeed.people.length = 2 := by decide
  rw [h2, createdCount_replicate j r name age hp hm hd hn ha (n + 1) mainSeed] at hl
  generalize run j mainSeed (List.replicate (n + 1) r) = s at ht hl
  obtain ⟨p, hp1, hp2⟩ := tracked_id_at s ht (2 + n) (by omega)
  refine ⟨p, ?_, ?_⟩
  · have hdrop : (s.people.drop 2)[n]? = some p := by
      rw [List.getElem?_drop]
      exact hp1
    exact List.getElem?_mem hdrop
  · rw [hp2]
    congr 1
    push_cast
    ring

/-- The bound on the store cannot be dropped for an unbounded list either:
`2^63 - 2` valid creates are all answered 201 and lead to a list that does not
fit in memory, in which one of the created records has id `-2^63`, outside the
range 3, ..., N + 2. -/
theorem created_ids_leave_range :
    createdCount demoCodec mainSeed (List.replicate 9223372036854775806 carolPost) =
      9223372036854775806 ∧
    ¬ InMemory (run demoCodec mainSeed (List.replicate 9223372036854775806 carolPost)) ∧
    ¬ (∀ p ∈ (run demoCodec mainSeed (List.replicate 9223372036854775806 carolPost)).people.drop 2,
        3 ≤ p.ID ∧ p.ID ≤ 9223372036854775806 + 2) := by
  refine ⟨?_, fun hmem => ?_, fun hall => ?_⟩
  · exact createdCount_replicate demoCodec carolPost "Carol" 22 rfl rfl rfl (by decide) (by decide)
      9223372036854775806 mainSeed
  · have hlen := run_replicate_length demoCodec carolPost "Carol" 22 rfl rfl rfl (by decide)
      (by decide) 9223372036854775806
    have hb := length_lt_of_inMemory _ hmem
    rw [hlen] at hb
    exact absurd hb (by decide)
  · obtain ⟨p, hp, hid⟩ := run_replicate_last_id demoCodec carolPost "Carol" 22 rfl rfl rfl
      (by decide) (by decide) 9223372036854775805
    have hc : wrapInt (((9223372036854775805 : Nat) : Int) + 3) = -9223372036854775808 := by
      decide
    rw [hc] at hid
    have h3 := (hall p hp).1
    rw [hid] at h3
    exact absurd h3 (by decide)

/-- After a run from the seeded store with N successful creates, N + 2 at most
`2^63 - 1`, the store holds the two seeded records followed by N records with
the ids 3, 4, ..., N + 2 in this order, and all ids are strictly increasing. -/
theorem run_ids_gap_free (j : Codec) (rs : List Request)
    (hN : ((createdCount j mainSeed rs : Nat) : Int) + 2 ≤ maxInt) :
    (run j mainSeed rs).people.length = createdCount j mainSeed rs + 2 ∧
    (run j mainSeed rs).people.take 2 = mainSeed.people ∧
    ((run j mainSeed rs).people.drop 2).map Person.ID =
      (List.range (createdCount j mainSeed rs)).map (fun i : Nat => (i : Int) + 3) ∧
    ((run j mainSeed rs).people.map Person.ID).Pairwise (fun a b => a < b) ∧
    ((run j mainSeed rs).people.map Person.ID).Nodup ∧
    (∀ (s : Store) (r : Request), (serve j s r).resp.status ≠ 201 → (serve j s r).store = s) := by
  have ht := tracked_run j rs mainSeed tracked_mainSeed
  have hl := run_people_length j rs mainSeed
  have h2 : mainSeed.people.length = 2 := by decide
  rw [h2] at hl
  obtain ⟨t, hpre⟩ := run_people_extends j rs mainSeed
  generalize createdCount j mainSeed rs = N at hN hl ⊢
  generalize run j mainSeed rs = s at ht hl hpre ⊢
  have hids := tracked_ids_eq s ht (by rw [hl]; push_cast; omega)
  rw [hl] at hids
  have hlt : (List.map (fun i : Nat => (i : Int) + 1) (List.range (2 + N))).Pairwise
      (fun a b => a < b) := by
    apply List.Pairwise.map _ _ (List.pairwise_lt_range (2 + N))
    intro a b hab
    show (a : Int) + 1 < (b : Int) + 1
    omega
  refine ⟨by omega, ?_, ?_, ?_, ?_, fun s r h => serve_not_created_unchanged j s r h⟩
  · rw [← hpre, ← h2]
    exact List.take_left' rfl
  · rw [List.map_drop, hids, List.range_add, List.map_append,
      List.drop_left' (by simp), List.map_map]
    apply List.map_congr_left
    intro i _
    show ((2 + i : Nat) : Int) + 1 = (i : Int) + 3
    push_cast
    ring
  · rw [hids]
    exact hlt
  · rw [hids]
    exact hlt.imp (fun h => ne_of_lt h)

/-- C11: starting from the seeded store, for every N and every sequence of
requests, handled one after another, that contains exactly N successful
creates (among any number of failed creates, lists and status probes) and
ends in a store that fits in memory, as the store of a running program always
does: the store holds the two seeded records followed by the N created ones,
the ids of the created records are 3, 4, ..., N + 2 in creation order without
a gap, the ids of all records are strictly increasing, hence pairwise distinct
and never equal to an id already in the store; and a request that is not
answered 201, a rejected create among them, leaves the counter and the
sequence unchanged, so it consumes no identifier. -/
theorem created_ids_gap_free (j : Codec) (rs : List Request)
    (hmem : InMemory (run j mainSeed rs)) :
    (run j mainSeed rs).people.length = createdCount j mainSeed rs + 2 ∧
    (run j mainSeed rs).people.take 2 = mainSeed.people ∧
    ((run j mainSeed rs).people.drop 2).map Person.ID =
      (List.range (createdCount j mainSeed rs)).map (fun i : Nat => (i : Int) + 3) ∧
    ((run j mainSeed rs).people.map Person.ID).Pairwise (fun a b => a < b) ∧
    ((run j mainSeed rs).people.map Person.ID).Nodup ∧
    (∀ (s : Store) (r : Request), (serve j s r).resp.status ≠ 201 →
      (serve j s r).store = s ∧ (serve j s r).store.nextID = s.nextID) := by
  have hlen := length_lt_of_inMemory _ hmem
  have hl := run_people_length j rs mainSeed
  have h2 : mainSeed.people.length = 2 := by decide
  rw [hl, h2] at hlen
  have hN : ((createdCount j mainSeed rs : Nat) : Int) + 2 ≤ maxInt := by
    push_cast at hlen
    omega
  obtain ⟨h1, h3, h4, h5, h6, h7⟩ := run_ids_gap_free j rs hN
  exact ⟨h1, h3, h4, h5, h6, fun s r h => ⟨h7 s r h, by rw [h7 s r h]⟩⟩

theorem created_ids_gap_free_witness :
    InMemory (run demoCodec mainSeed [carolPost, garbagePost, getPeople, carolPost]) ∧
    createdCount demoCodec mainSeed [carolPost, garbagePost, getPeople, carolPost] = 2 ∧
    ((run demoCodec mainSeed [carolPost, garbagePost, getPeople, carolPost]).people.drop 2).map
      Person.ID =
      (List.range (createdCount demoCodec mainSeed
        [carolPost, garbagePost, getPeople, carolPost])).map (fun i : Nat => (i : Int) + 3) :=
  have hm : InMemory (run demoCodec mainSeed [carolPost, garbagePost, getPeople, carolPost]) := by
    unfold InMemory
    decide
  ⟨hm, rfl,
    (created_ids_gap_free demoCodec [carolPost, garbagePost, getPeople, carolPost] hm).2.2.1⟩

/-! ## C12: an encoder that fails in the list handler -/

/-- C12, as stated, fails: with an encoder that returns an error, a GET handled
by the list handler is still answered with status 200, which is not a 5xx
status. -/
theorem list_encode_failure_answers_200 :
    (failingCodec.encode (Payload.people mainSeed.people)).err = some "write: broken pipe" ∧
    (listPeopleHandler failingCodec mainSeed getPeople).resp.status = 200 ∧
    ¬ (500 ≤ (listPeopleHandler failingCodec mainSeed getPeople).resp.status ∧
        (listPeopleHandler failingCodec mainSeed getPeople).resp.status ≤ 599) := by
  refine ⟨rfl, ?_, ?_⟩ <;> decide

/-- C12, amended: if encoding the record collection fails in the list handler
with error `e`, the failure is logged and nothing else: the response keeps the
status 200 and the JSON content type written before the encoding started (no
5xx status is sent), its body is whatever the encoder wrote, the handler
returns, one line naming the error is logged, and the store is unchanged. -/
theorem list_encode_failure_logged (j : Codec) (s : Store) (r : Request) (e : String)
    (hm : r.Method = MethodGet) (he : (j.encode (Payload.people s.people)).err = some e) :
    (listPeopleHandler j s r).resp.status = 200 ∧
    ¬ (500 ≤ (listPeopleHandler j s r).resp.status) ∧
    (listPeopleHandler j s r).resp.contentType = "application/json" ∧
    (listPeopleHandler j s r).resp.body = (j.encode (Payload.people s.people)).written ∧
    (listPeopleHandler j s r).log = ["error encoding people list: " ++ e] ∧
    (listPeopleHandler j s r).store = s := by
  rw [listPeopleHandler_get j s r hm]
  have h500 : ¬ ((500 : Int) ≤ StatusOK) := by decide
  refine ⟨rfl, h500, rfl, rfl, ?_, rfl⟩
  show logEncodeError "error encoding people list:" (j.encode (Payload.people s.people)) = _
  unfold logEncodeError
  rw [he]
  simp [String.append_assoc]

theorem list_encode_failure_logged_witness :
    (listPeopleHandler failingCodec mainSeed getPeople).resp.status = 200 ∧
    (listPeopleHandler failingCodec mainSeed getPeople).log =
      ["error encoding people list: write: broken pipe"] ∧
    (listPeopleHandler failingCodec mainSeed getPeople).store = mainSeed :=
  have h := list_encode_failure_logged failingCodec mainSeed getPeople "write: broken pipe"
    rfl rfl
  ⟨h.1, h.2.2.2.2.1, h.2.2.2.2.2⟩

/-! ## C13: every stored record is valid -/

theorem validRecords_mainSeed : ValidRecords mainSeed := by
  intro p hp
  have hmem : p = { ID := 1, Name := "Alice", Age := 30 } ∨
      p = { ID := 2, Name := "Bob", Age := 25 } := by
    have hseed : mainSeed.people =
        [{ ID := 1, Name := "Alice", Age := 30 }, { ID := 2, Name := "Bob", Age := 25 }] := by
      decide
    rw [hseed] at hp
    simpa using hp
  rcases hmem with h | h <;> rw [h] <;> exact ⟨by decide, by decide⟩

theorem validRecords_serve (j : Codec) (s : Store) (r : Request) (h : ValidRecords s) :
    ValidRecords (serve j s r).store := by
  rcases serve_unchanged_or_created j s r with ⟨hs, _⟩ | ⟨name, age, hn, ha, hs, _⟩
  · rw [hs]; exact h
  · rw [hs]
    intro p hp
    rcases List.mem_append.mp hp with hold | hnew
    · exact h p hold
    · rw [List.mem_singleton.mp hnew]
      exact ⟨hn, ha⟩

theorem validRecords_run (j : Codec) (rs : List Request) :
    ∀ s : Store, ValidRecords s → ValidRecords (run j s rs) := by
  induction rs with
  | nil => intro s h; exact h
  | cons r rs ih => intro s h; exact ih _ (validRecords_serve j s r h)

/-- C13: in every store reachable from the seeded store by a finite sequence of
requests, every record has a non-empty name and an age strictly above 0. -/
theorem reachable_records_valid (j : Codec) (s : Store) (h : Reachable j s) :
    ∀ p ∈ s.people, p.Name ≠ "" ∧ 0 < p.Age := by
  obtain ⟨rs, hrs⟩ := h
  rw [← hrs]
  exact validRecords_run j rs mainSeed validRecords_mainSeed

theorem reachable_records_valid_witness :
    Reachable demoCodec (run demoCodec mainSeed [carolPost, garbagePost, getPeople]) ∧
    ({ ID := 3, Name := "Carol", Age := 22 } : Person).Name ≠ "" ∧
    0 < ({ ID := 3, Name := "Carol", Age := 22 } : Person).Age :=
  ⟨⟨[carolPost, garbagePost, getPeople], rfl⟩,
   reachable_records_valid demoCodec (run demoCodec mainSeed [carolPost, garbagePost, getPeople])
     ⟨[carolPost, garbagePost, getPeople], rfl⟩ { ID := 3, Name := "Carol", Age := 22 }
     (by decide)⟩

/-! ## C15: the name is stored as decoded -/

/-- C15: the create handler does not normalize the name: for every store and
every POST whose body decodes to a non-empty name, a name made only of blanks
included, and an age above 0, the answer is 201 and the record appended to the
store, which is also the record encoded into the response, carries exactly the
decoded name (and age). -/
theorem create_keeps_name (j : Codec) (s : Store) (r : Request) (name : String) (age : Int)
    (hm : r.Method = MethodPost)
    (hd : j.decode r.Body = Except.ok { Name := name, Age := age })
    (hn : name ≠ "") (ha : 0 < age) :
    (createPersonHandler j s r).resp.status = 201 ∧
    ∃ p : Person, (createPersonHandler j s r).store.people = s.people ++ [p] ∧
      (createPersonHandler j s r).resp.body = (j.encode (Payload.person p)).written ∧
      p.Name = name ∧ p.Age = age := by
  rw [createPersonHandler_valid j s r name age hm hd hn ha]
  exact ⟨rfl, newPerson s name age, rfl, rfl, rfl, rfl⟩

theorem create_keeps_name_witness :
    (createPersonHandler spaceCodec mainSeed carolPost).resp.status = 201 ∧
    ∃ p : Person, (createPersonHandler spaceCodec mainSeed carolPost).store.people =
        mainSeed.people ++ [p] ∧
      (createPersonHandler spaceCodec mainSeed carolPost).resp.body =
        (spaceCodec.encode (Payload.person p)).written ∧
      p.Name = " " ∧ p.Age = 1 :=
  create_keeps_name spaceCodec mainSeed carolPost " " 1 rfl rfl (by decide) (by decide)

/-! ## C14: creates handled in parallel -/

/-- A call that executes its three statements with no other call in between
changes the store exactly as `createPersonHandler` does, and returns the
record the handler builds. -/
theorem runSchedule_alone (j : Codec) (s : Store) (r : Request) (name : String) (age : Int)
    (hm : r.Method = MethodPost)
    (hd : j.decode r.Body = Except.ok { Name := name, Age := age })
    (hn : name ≠ "") (ha : 0 < age) :
    runSchedule s [CreateCall.validated { Name := name, Age := age }] [0, 0, 0] =
      ((createPersonHandler j s r).store, [CreateCall.appended (newPerson s name age)]) := by
  rw [createPersonHandler_valid j s r name age hm hd hn ha]
  rfl

/-- Two calls that run one after the other get the ids 3 and 4. -/
theorem runSchedule_one_after_the_other :
    (runSchedule mainSeed carolAndDave [0, 0, 0, 1, 1, 1]).1 =
      { people := [{ ID := 1, Name := "Alice", Age := 30 }, { ID := 2, Name := "Bob", Age := 25 },
                   { ID := 3, Name := "Carol", Age := 22 }, { ID := 4, Name := "Dave", Age := 40 }],
        nextID := 5 } := by
  decide

/-- C14, which the code does not meet: two create requests with valid bodies are
handled in parallel on the seeded store and their statements alternate (both
build their record, both increment the counter, both append). Both calls
finish, both records are stored, and both carry the id 3: the two created
records do not receive distinct identifiers, since reading the counter and
incrementing it are not one atomic step. -/
theorem concurrent_creates_share_id :
    (runSchedule mainSeed carolAndDave [0, 1, 0, 1, 0, 1]).1 =
      { people := [{ ID := 1, Name := "Alice", Age := 30 }, { ID := 2, Name := "Bob", Age := 25 },
                   { ID := 3, Name := "Carol", Age := 22 }, { ID := 3, Name := "Dave", Age := 40 }],
        nextID := 5 } ∧
    (runSchedule mainSeed carolAndDave [0, 1, 0, 1, 0, 1]).2.map CreateCall.returned =
      [some { ID := 3, Name := "Carol", Age := 22 }, some { ID := 3, Name := "Dave", Age := 40 }] ∧
    ¬ ((runSchedule mainSeed carolAndDave [0, 1, 0, 1, 0, 1]).1.people.map Person.ID).Nodup := by
  refine ⟨?_, ?_, ?_⟩ <;> decide

end HttpJson

namespace FunctionsMethods

open HttpJson (wrapInt minInt maxInt wrapInt_of_inRange wrapInt_succ_of_lt wrapInt_succ_maxInt)

/-! ## Arithmetic of truncated division on 64-bit ints -/

theorem natAbs_tmod_eq (a b : Int) : (Int.tmod a b).natAbs = a.natAbs % b.natAbs := by
  cases a <;> cases b <;> simp [Int.tmod, Int.natAbs_neg] <;> rfl

theorem tmod_nonpos_of_nonpos (a b : Int) (ha : a ≤ 0) : Int.tmod a b ≤ 0 := by
  cases a with
  | ofNat m =>
    have hm : (m : Int) ≤ 0 := ha
    have : m = 0 := by omega
    subst this
    simp
  | negSucc m =>
    cases b with
    | ofNat n =>
      show -Int.ofNat (Nat.succ m % n) ≤ 0
      exact Int.neg_nonpos_of_nonneg (Int.ofNat_nonneg _)
    | negSucc n =>
      show -Int.ofNat (Nat.succ m % Nat.succ n) ≤ 0
      exact Int.neg_nonpos_of_nonneg (Int.ofNat_nonneg _)

theorem abs_tmod_lt (a b : Int) (hb : b ≠ 0) : |Int.tmod a b| < |b| := by
  rw [Int.abs_eq_natAbs, Int.abs_eq_natAbs, natAbs_tmod_eq]
  exact_mod_cast Nat.mod_lt _ (Int.natAbs_pos.mpr hb)

theorem tmod_inRange (a b : Int) (hlo : minInt ≤ a) (hhi : a ≤ maxInt) :
    minInt ≤ Int.tmod a b ∧ Int.tmod a b ≤ maxInt := by
  have h := natAbs_tmod_eq a b
  have hle : a.natAbs % b.natAbs ≤ a.natAbs := Nat.mod_le _ _
  rcases le_total a 0 with hs | hs
  · have hsign := tmod_nonpos_of_nonpos a b hs
    unfold minInt maxInt at *
    omega
  · have hsign := Int.tmod_nonneg b hs
    unfold minInt maxInt at *
    omega

theorem wrapInt_add_mul (y m : Int) :
    wrapInt (y + 18446744073709551616 * m) = wrapInt y := by
  unfold wrapInt
  omega

theorem wrapInt_eq_add_mul (x : Int) : ∃ k : Int, wrapInt x = x + 18446744073709551616 * k :=
  ⟨-((x + 9223372036854775808) / 18446744073709551616), by unfold wrapInt; omega⟩

theorem wrapInt_wrapInt_add (x r : Int) : wrapInt (wrapInt x + r) = wrapInt (x + r) := by
  unfold wrapInt
  omega

/-- The value Go computes for `q*b + r`, where `q` is the 64-bit quotient and
`r` the remainder of `a` by `b`, is `a` again. -/
theorem wrapped_quotient_identity (a b : Int) (hlo : minInt ≤ a) (hhi : a ≤ maxInt) :
    wrapInt (wrapInt (wrapInt (Int.tdiv a b) * b) + Int.tmod a b) = a := by
  obtain ⟨k, hk⟩ := wrapInt_eq_add_mul (Int.tdiv a b)
  have hmul : wrapInt (Int.tdiv a b) * b =
      Int.tdiv a b * b + 18446744073709551616 * (k * b) := by
    rw [hk]; ring
  rw [wrapInt_wrapInt_add, hmul]
  have hsum : Int.tdiv a b * b + 18446744073709551616 * (k * b) + Int.tmod a b =
      a + 18446744073709551616 * (k * b) := by
    have h := Int.tdiv_add_tmod' a b
    linarith
  rw [hsum, wrapInt_add_mul]
  exact wrapInt_of_inRange a hlo hhi

/-- Apart from `minInt / -1`, the truncated quotient of two 64-bit ints is a
64-bit int. -/
theorem tdiv_inRange (a b : Int) (hlo : minInt ≤ a) (hhi : a ≤ maxInt)
    (hne : ¬ (a = minInt ∧ b = -1)) :
    minInt ≤ Int.tdiv a b ∧ Int.tdiv a b ≤ maxInt := by
  have h := Int.natAbs_tdiv a b
  have hdiv : a.natAbs.div b.natAbs = a.natAbs / b.natAbs := rfl
  rw [hdiv] at h
  by_cases h1 : b = 1
  · subst h1
    rw [Int.tdiv_one]
    exact ⟨hlo, hhi⟩
  by_cases h2 : b = -1
  · subst h2
    have hq : Int.tdiv a (-1) = -a := by
      rw [Int.tdiv_neg, Int.tdiv_one]
    rw [hq]
    have hamin : a ≠ minInt := fun h => hne ⟨h, rfl⟩
    unfold minInt maxInt at *
    omega
  by_cases h0 : b = 0
  · subst h0
    rw [Int.tdiv_zero]
    unfold minInt maxInt
    omega
  have hb2 : 2 ≤ b.natAbs := by omega
  have hle : a.natAbs / b.natAbs ≤ a.natAbs / 2 := Nat.div_le_div_left hb2 (by decide)
  unfold minInt maxInt at *
  omega

/-! ## C16: value receiver and pointer receiver -/

/-- C16, as stated, fails at the largest age: `HaveBirthday` on a person of age
`2^63 - 1` leaves the age `-2^63`, not the old age plus 1. -/
theorem haveBirthday_wraps_at_maxInt :
    (callHaveBirthday { Name := "Alice", Age := 9223372036854775807 }).1.Age =
      -9223372036854775808 ∧
    (callHaveBirthday { Name := "Alice", Age := 9223372036854775807 }).1.Age ≠
      9223372036854775807 + 1 := by
  constructor <;> decide

/-- C16, amended: for every `Person` whose age is a 64-bit int, a call of the
value-receiver method `Info` leaves the caller's variable unchanged although
the method sets the age of its own copy to 123; a call of the pointer-receiver
method `HaveBirthday` keeps the name and makes the age the old age plus 1,
except that the largest age `2^63 - 1` wraps to `-2^63`; two such calls raise
the age by exactly 2 when the old age is below `2^63 - 2`; in `main` the ages
are 29, 29, 30 and 31. -/
theorem receivers (p : Person) (hlo : minInt ≤ p.Age) (hhi : p.Age ≤ maxInt) :
    (callInfo p).1 = p ∧
    (Person.Info p).1.Age = 123 ∧
    (Person.Info p).1.Name = p.Name ∧
    (callHaveBirthday p).1.Name = p.Name ∧
    (callHaveBirthday p).1.Age = (if p.Age = maxInt then minInt else p.Age + 1) ∧
    (p.Age < maxInt → (callHaveBirthday p).1.Age = p.Age + 1) ∧
    (callHaveBirthday (callHaveBirthday p).1).1.Name = p.Name ∧
    (p.Age + 1 < maxInt → (callHaveBirthday (callHaveBirthday p).1).1.Age = p.Age + 2) ∧
    mainPersonStates.map Person.Age = [29, 29, 30, 31] := by
  have hone : p.Age < maxInt → wrapInt (p.Age + 1) = p.Age + 1 :=
    fun h => wrapInt_succ_of_lt p.Age hlo h
  refine ⟨rfl, rfl, rfl, rfl, ?_, hone, rfl, ?_, by decide⟩
  · show wrapInt (p.Age + 1) = _
    by_cases h : p.Age = maxInt
    · rw [if_pos h, h]
      exact wrapInt_succ_maxInt
    · rw [if_neg h]
      exact hone (lt_of_le_of_ne hhi h)
  · intro h
    show wrapInt (wrapInt (p.Age + 1) + 1) = p.Age + 2
    have h1 : p.Age < maxInt := by omega
    rw [hone h1, wrapInt_succ_of_lt (p.Age + 1) (by unfold minInt at *; omega) h]
    ring

theorem receivers_witness :
    (callInfo { Name := "Alice", Age := 29 }).1 = { Name := "Alice", Age := 29 } ∧
    (callHaveBirthday { Name := "Alice", Age := 29 }).1.Age = 29 + 1 :=
  have h := receivers { Name := "Alice", Age := 29 } (by decide) (by decide)
  ⟨h.1, h.2.2.2.2.2.1 (by decide)⟩

/-! ## C17: quotient and remainder -/

/-- C17: for all 64-bit ints `a` and `b` with `b` not 0, `divideAndRemainder`
returns a pair `(q, r)` with `q*b + r = a` in 64-bit wrap-around arithmetic,
`|r| < |b|`, and `r` zero or of the sign of `a`; `q` is the quotient truncated
towards zero unless `a = -2^63` and `b = -1`; `(17, 5)` gives `(3, 2)`; and for
`b = 0` no result is returned. -/
theorem divideAndRemainder_truncates (a b : Int) (hlo : minInt ≤ a) (hhi : a ≤ maxInt) :
    (b ≠ 0 → ∃ q r : Int, divideAndRemainder a b = some (q, r) ∧
      wrapInt (wrapInt (q * b) + r) = a ∧
      |r| < |b| ∧
      (r = 0 ∨ (0 < r ∧ 0 < a) ∨ (r < 0 ∧ a < 0)) ∧
      r = Int.tmod a b ∧
      (¬ (a = minInt ∧ b = -1) → q = Int.tdiv a b)) ∧
    divideAndRemainder a 0 = none ∧
    divideAndRemainder 17 5 = some (3, 2) := by
  refine ⟨fun hb => ?_, by simp [divideAndRemainder], by decide⟩
  have hr := tmod_inRange a b hlo hhi
  have hwr : wrapInt (Int.tmod a b) = Int.tmod a b := wrapInt_of_inRange _ hr.1 hr.2
  refine ⟨wrapInt (Int.tdiv a b), Int.tmod a b, ?_, ?_, abs_tmod_lt a b hb, ?_, rfl, ?_⟩
  · simp [divideAndRemainder, hb, hwr]
  · exact wrapped_quotient_identity a b hlo hhi
  · rcases lt_trichotomy a 0 with hneg | hzero | hpos
    · have h := tmod_nonpos_of_nonpos a b (le_of_lt hneg)
      rcases lt_or_eq_of_le h with h1 | h1
      · exact Or.inr (Or.inr ⟨h1, hneg⟩)
      · exact Or.inl h1
    · rw [hzero]
      exact Or.inl (Int.zero_tmod b)
    · have h := Int.tmod_nonneg b (le_of_lt hpos)
      rcases lt_or_eq_of_le h with h1 | h1
      · exact Or.inr (Or.inl ⟨h1, hpos⟩)
      · exact Or.inl h1.symm
  · intro hne
    have hq := tdiv_inRange a b hlo hhi hne
    exact wrapInt_of_inRange _ hq.1 hq.2

theorem divideAndRemainder_truncates_witness :
    ∃ q r : Int, divideAndRemainder (-17) 5 = some (q, r) ∧
      wrapInt (wrapInt (q * 5) + r) = -17 ∧
      |r| < |(5 : Int)| ∧
      (r = 0 ∨ (0 < r ∧ 0 < (-17 : Int)) ∨ (r < 0 ∧ (-17 : Int) < 0)) ∧
      r = Int.tmod (-17) 5 ∧
      (¬ ((-17 : Int) = minInt ∧ (5 : Int) = -1) → q = Int.tdiv (-17) 5) :=
  (divideAndRemainder_truncates (-17) 5 (by decide) (by decide)).1 (by decide)

end FunctionsMethods
